import Mathlib

/-!
Shallow embedding of the PCAP analysis engine
(`src/modules/pcap/service.py`): the SYN-flood detector
`detect_syn_flood`, the traffic aggregator `analyze_packets`, the
display classifier `get_protocol_name`, and the request handler
`analyze_pcap`.

Modelling conventions:
* Python floats (packet timestamps, ratios) are modelled as rationals;
  `round(x, n)` is modelled by round-half-to-even at `n` decimals.
* scapy packets are projected to the fields the module reads: layer
  presence flags, IP source/destination strings, TCP/UDP ports, TCP
  control flags (as a natural number bit mask), timestamp and length.
* Python `Counter` / `defaultdict` are modelled as insertion-ordered
  association lists; `Counter.most_common(n)` is a stable descending
  sort by count followed by truncation, which is its documented
  behaviour (ties keep insertion order).
-/

/-- Projection of a scapy packet to the fields read by the module.
The `tcp`/`udp` port fields and `tcpFlags` are meaningful only when the
corresponding layer-presence flag is `true`, and `ipSrc`/`ipDst` only
when `hasIP` is `true` (scapy's IP layer carries dotted-quad strings). -/
structure Packet where
  time : ℚ
  len : Nat
  hasTCP : Bool
  hasUDP : Bool
  hasICMP : Bool
  hasARP : Bool
  hasDNS : Bool
  hasIP : Bool
  ipSrc : String
  ipDst : String
  tcpFlags : Nat
  tcpSport : Nat
  tcpDport : Nat
  udpSport : Nat
  udpDport : Nat
deriving DecidableEq, Repr

/-- Round a rational to the nearest integer, ties to even
(Python `round` semantics). -/
def roundHalfEven (q : ℚ) : ℤ :=
  let f : ℤ := ⌊q⌋
  let frac : ℚ := q - f
  if frac < 1/2 then f
  else if 1/2 < frac then f + 1
  else if f % 2 = 0 then f else f + 1

/-- Python `round(x, 2)`. -/
def round2 (q : ℚ) : ℚ := (roundHalfEven (q * 100) : ℚ) / 100

/-- Python `round(x, 3)`. -/
def round3 (q : ℚ) : ℚ := (roundHalfEven (q * 1000) : ℚ) / 1000

/-! ### Counter / defaultdict models -/

/-- Model of `Counter[k] += 1`: increment in place if the key is present,
otherwise append the new key at the end (dict insertion order). -/
def cntAdd (m : List (String × Nat)) (k : String) : List (String × Nat) :=
  match m with
  | [] => [(k, 1)]
  | (k₀, n) :: rest =>
      if k₀ = k then (k₀, n + 1) :: rest else (k₀, n) :: cntAdd rest k

/-- Model of `m.get(k, 0)`. -/
def lookupNat (m : List (String × Nat)) (k : String) : Nat :=
  match m with
  | [] => 0
  | (k₀, n) :: rest => if k₀ = k then n else lookupNat rest k

/-- Sum of the values of a counter. -/
def sumValues (m : List (String × Nat)) : Nat := (m.map Prod.snd).sum

/-! ### SYN-flood detector (`detect_syn_flood`) -/

/-- One entry of `syn_packets[src_ip]`:
`{"dst_ip": ..., "dst_port": ..., "time": ...}`. -/
structure SynEntry where
  dst_ip : String
  dst_port : Nat
  time : ℚ
deriving DecidableEq, Repr

/-- Test `flags & 0x02 and not (flags & 0x10)`: SYN set, ACK clear. -/
def bareSyn (flags : Nat) : Bool :=
  (flags &&& 2 != 0) && (flags &&& 16 == 0)

/-- Model of `defaultdict(list)` append: extend the list of an existing key in
place, or append a new singleton binding at the end. -/
def mmAdd (m : List (String × List SynEntry)) (k : String) (e : SynEntry) :
    List (String × List SynEntry) :=
  match m with
  | [] => [(k, [e])]
  | (k₀, es) :: rest =>
      if k₀ = k then (k₀, es ++ [e]) :: rest else (k₀, es) :: mmAdd rest k e

/-- Lookup in the multimap, defaulting to the empty list. -/
def entriesOf (m : List (String × List SynEntry)) (k : String) : List SynEntry :=
  match m with
  | [] => []
  | (k₀, es) :: rest => if k₀ = k then es else entriesOf rest k

/-- The loop body of `detect_syn_flood`: classify one packet into the
`(syn_packets, syn_ack_counts)` state. -/
def synStep (st : List (String × List SynEntry) × List (String × Nat))
    (p : Packet) : List (String × List SynEntry) × List (String × Nat) :=
  if p.hasTCP && p.hasIP then
    if bareSyn p.tcpFlags then
      (mmAdd st.1 p.ipSrc ⟨p.ipDst, p.tcpDport, p.time⟩, st.2)
    else if p.tcpFlags == 18 then
      (st.1, cntAdd st.2 p.ipDst)
    else st
  else st

/-- The accumulation pass of `detect_syn_flood` over the whole capture. -/
def synState (pkts : List Packet) :
    List (String × List SynEntry) × List (String × Nat) :=
  pkts.foldl synStep ([], [])

/-- The string key `f"{e['dst_ip']}:{e['dst_port']}"`. -/
def targetKey (e : SynEntry) : String :=
  e.dst_ip ++ ":" ++ toString e.dst_port

/-- One alert dictionary emitted by `detect_syn_flood`. -/
structure Alert where
  source_ip : String
  syn_count : Nat
  syn_ack_count : Nat
  ack_ratio : ℚ
  unique_targets : Nat
  severity : String
deriving DecidableEq, Repr

/-- The alert-emission step of `detect_syn_flood` for one binding
`(src_ip, entries)` of `syn_packets`, given the `syn_ack_counts`
mapping: skip sources with no bare SYNs (the `continue`), compute the
ACK ratio, and emit the alert when `syn_count >= 10 and ratio < 0.2`. -/
def synAlertOf (acks : List (String × Nat)) (b : String × List SynEntry) :
    Option Alert :=
  let src_ip := b.1
  let entries := b.2
  let syn_count : Nat := entries.length
  let syn_ack_count := lookupNat acks src_ip
  if syn_count = 0 then none
  else
    let ratio : ℚ := if syn_count = 0 then 0 else (syn_ack_count : ℚ) / (syn_count : ℚ)
    if 10 ≤ syn_count ∧ ratio < 1/5 then
      some { source_ip := src_ip
           , syn_count := syn_count
           , syn_ack_count := syn_ack_count
           , ack_ratio := round2 ratio
           , unique_targets := ((entries.map targetKey).dedup).length
           , severity := if 50 < syn_count then "high" else "medium" }
    else none

/-- Embedding of `detect_syn_flood`: accumulate bare-SYN lists per source and
SYN-ACK counts per destination, then emit an alert for every source
with at least 10 bare SYNs and an ACK ratio below 0.2. -/
def detect_syn_flood (pkts : List Packet) : List Alert :=
  let st := synState pkts
  st.1.filterMap (synAlertOf st.2)

/-! ### Traffic aggregator (`analyze_packets`) -/

/-- The tally label of the aggregation loop: first matching layer wins,
in the order TCP, UDP, ICMP, ARP, DNS, Other. -/
def tallyLabel (p : Packet) : String :=
  if p.hasTCP then "TCP"
  else if p.hasUDP then "UDP"
  else if p.hasICMP then "ICMP"
  else if p.hasARP then "ARP"
  else if p.hasDNS then "DNS"
  else "Other"

/-- Embedding of `get_protocol_name`: the display label used in the packet preview. -/
def get_protocol_name (p : Packet) : String :=
  if p.hasTCP then
    if p.tcpSport = 80 ∨ p.tcpDport = 80 then "HTTP"
    else if p.tcpSport = 443 ∨ p.tcpDport = 443 then "HTTPS"
    else if p.tcpSport = 22 ∨ p.tcpDport = 22 then "SSH"
    else "TCP"
  else if p.hasUDP then
    if p.udpSport = 53 ∨ p.udpDport = 53 then "DNS" else "UDP"
  else if p.hasICMP then "ICMP"
  else if p.hasARP then "ARP"
  else "Other"

/-- Mutable state of the aggregation loop of `analyze_packets`. -/
structure AggState where
  proto : List (String × Nat)
  srcCnt : List (String × Nat)
  dstCnt : List (String × Nat)
  bytes : Nat
deriving DecidableEq, Repr

/-- Loop body of `analyze_packets`: add the packet's length, bump the
protocol tally, and (only for IP packets) the source and destination
counters. -/
def aggStep (st : AggState) (p : Packet) : AggState :=
  { proto := cntAdd st.proto (tallyLabel p)
  , srcCnt := if p.hasIP then cntAdd st.srcCnt p.ipSrc else st.srcCnt
  , dstCnt := if p.hasIP then cntAdd st.dstCnt p.ipDst else st.dstCnt
  , bytes := st.bytes + p.len }

/-- The aggregation pass of `analyze_packets` over the whole capture. -/
def aggregate (pkts : List Packet) : AggState :=
  pkts.foldl aggStep ⟨[], [], [], 0⟩

/-- Stable descending insertion by count: a new element goes before the
first strictly smaller count, hence after every earlier element with an
equal or larger count. -/
def insertTalker (x : String × Nat) : List (String × Nat) → List (String × Nat)
  | [] => [x]
  | h :: t => if h.2 < x.2 then x :: h :: t else h :: insertTalker x t

/-- Model of `Counter.most_common` without the truncation: a stable sort of the
insertion-ordered counter items, descending by count. -/
def sortTalkers (l : List (String × Nat)) : List (String × Nat) :=
  l.foldl (fun acc x => insertTalker x acc) []

/-- One entry of `packet_details` (the duplicated JSON keys `time` and
`size` carry the same values as `relative_time` and `size_bytes`). -/
structure PreviewEntry where
  relative_time : ℚ
  source : String
  destination : String
  protocol : String
  size_bytes : Nat
deriving DecidableEq, Repr

/-- The `basic_stats` dictionary. -/
structure BasicStats where
  total_packets : Nat
  duration : ℚ
  unique_ips : Nat
  total_bytes : Nat
deriving DecidableEq, Repr

/-- The dictionary returned by `analyze_packets`. -/
structure Analysis where
  basic_stats : BasicStats
  protocol_stats : List (String × Nat)
  top_talkers : List (String × Nat)
  packet_details : List PreviewEntry
deriving DecidableEq, Repr

/-- The preview row built for one packet. -/
def previewEntry (start : ℚ) (p : Packet) : PreviewEntry :=
  { relative_time := round3 (p.time - start)
  , source := if p.hasIP then p.ipSrc else "N/A"
  , destination := if p.hasIP then p.ipDst else "N/A"
  , protocol := get_protocol_name p
  , size_bytes := p.len }

/-- Embedding of `analyze_packets`: empty captures return the all-zero result;
otherwise one aggregation pass feeds the summary, tally, top talkers
(stable top 5 by source count) and the 10-packet preview. -/
def analyze_packets (pkts : List Packet) : Analysis :=
  match pkts with
  | [] => ⟨⟨0, 0, 0, 0⟩, [], [], []⟩
  | first :: rest =>
      let start := first.time
      let lastPkt := rest.getLastD first
      let duration := round2 (lastPkt.time - start)
      let st := aggregate (first :: rest)
      { basic_stats :=
          { total_packets := (first :: rest).length
          , duration := duration
          , unique_ips :=
              ((st.srcCnt.map Prod.fst) ++ (st.dstCnt.map Prod.fst)).dedup.length
          , total_bytes := st.bytes }
      , protocol_stats := st.proto
      , top_talkers := (sortTalkers st.srcCnt).take 5
      , packet_details := ((first :: rest).take 10).map (previewEntry start) }

/-! ### Request handler (`analyze_pcap`) -/

/-- An `HTTPException`: status code and detail message. -/
structure ApiError where
  status : Nat
  detail : String
deriving DecidableEq, Repr

/-- The success payload of `analyze_pcap`: the aggregate analysis plus
the file metadata and the SYN-flood alerts. -/
structure PcapResponse where
  analysis : Analysis
  fileName : String
  fileSizeBytes : Nat
  synFlood : List Alert
deriving DecidableEq, Repr

/-- Python `str.lower()` (the extensions compared against are ASCII,
so per-character case folding is all that matters here). -/
def lowerName (s : String) : String := ⟨s.data.map Char.toLower⟩

/-- Python `str.endswith(post)`: the character sequence of `post` is a
suffix of the string. -/
def strEndsWith (s post : String) : Bool := post.data.isSuffixOf s.data

/-- The filename guard of `analyze_pcap`:
`file.filename and file.filename.lower().endswith((".pcap", ".pcapng"))`
(an absent filename is modelled as the empty string). -/
def validPcapName (name : String) : Bool :=
  !(name == "") &&
    (strEndsWith (lowerName name) ".pcap" || strEndsWith (lowerName name) ".pcapng")

/-- Embedding of `analyze_pcap`. The capture parser (`rdpcap`, an external library)
and the detector call are passed as fallible functions; the `try`
block covers parsing, aggregation and detection, and any exception
escaping it is turned into an internal-error response (HTTP 500),
mirroring `except Exception`. The pre-parse checks are the Scapy
availability probe (503) and the filename extension test (400). -/
def analyze_pcap (parse : List Nat → Except String (List Packet))
    (detector : List Packet → Except String (List Alert))
    (scapyAvailable : Bool) (filename : String) (contents : List Nat) :
    Except ApiError PcapResponse :=
  if !scapyAvailable then
    .error ⟨503, "PCAP analysis unavailable: Scapy is not installed. Install scapy in the virtual environment to enable this module."⟩
  else if !validPcapName filename then
    .error ⟨400, "Invalid file type. Please upload a .pcap or .pcapng file."⟩
  else
    match parse contents with
    | .error e => .error ⟨500, "Error analyzing file: " ++ e⟩
    | .ok packets =>
        let analysis := analyze_packets packets
        match detector packets with
        | .error e => .error ⟨500, "Error analyzing file: " ++ e⟩
        | .ok alerts =>
            .ok { analysis := analysis
                , fileName := filename
                , fileSizeBytes := analysis.basic_stats.total_bytes
                , synFlood := alerts }

/-! ### Spec-side characterizations (written from the spec's words, for
comparison with the code-side folds) -/

/-- The packet is a bare SYN (SYN set, ACK clear) sent by `ip`. -/
def isBareSynFrom (ip : String) (p : Packet) : Bool :=
  p.hasTCP && p.hasIP && bareSyn p.tcpFlags && (p.ipSrc == ip)

/-- The packet is an exact SYN-ACK (flags exactly `SYN|ACK = 0x12`)
whose destination is `ip`. -/
def isSynAckTo (ip : String) (p : Packet) : Bool :=
  p.hasTCP && p.hasIP && (p.tcpFlags == 18) && (p.ipDst == ip)

/-- Number of bare SYNs sent by `ip` in the capture. -/
def bareSynCount (pkts : List Packet) (ip : String) : Nat :=
  (pkts.filter (isBareSynFrom ip)).length

/-- Number of exact SYN-ACKs addressed to `ip` in the capture
(cross-role: `ip` as a destination). -/
def synAckCountSpec (pkts : List Packet) (ip : String) : Nat :=
  (pkts.filter (isSynAckTo ip)).length

/-- Number of distinct `(dst_ip, dst_port)` pairs among the bare SYNs
sent by `ip`. -/
def bareSynTargets (pkts : List Packet) (ip : String) : Nat :=
  (((pkts.filter (isBareSynFrom ip)).map (fun p => (p.ipDst, p.tcpDport))).dedup).length

/-- The bare-SYN record built by the detector for one packet. -/
def synEntryOf (p : Packet) : SynEntry := ⟨p.ipDst, p.tcpDport, p.time⟩

/-- Numeric value of one decimal digit character. -/
def charDigit (c : Char) : Nat := c.toNat - 48

/-- Decimal decoding of a digit string, used to invert `Nat.toDigits`. -/
def digitsVal (l : List Char) : Nat :=
  l.foldl (fun acc c => 10 * acc + charDigit c) 0

/-- The key-building function of the detector's `unique_targets` set,
on a raw `(dst_ip, dst_port)` pair. -/
def strKey (q : String × Nat) : String := q.1 ++ ":" ++ toString q.2

/-- First-seen order of source addresses of IP packets. -/
def firstSeenSources (pkts : List Packet) : List String :=
  pkts.foldl (fun acc p =>
    if p.hasIP then (if p.ipSrc ∈ acc then acc else acc ++ [p.ipSrc]) else acc) []

/-- Insert into a list sorted by `rankedBefore`: before the first
element it outranks. -/
def insertRanked (x : Nat × (String × Nat)) :
    List (Nat × (String × Nat)) → List (Nat × (String × Nat))
  | [] => [x]
  | h :: t =>
      if h.2.2 < x.2.2 ∨ (x.2.2 = h.2.2 ∧ x.1 < h.1) then x :: h :: t
      else h :: insertRanked x t

/-- Sort the enumerated counter items by `rankedBefore`. -/
def rankSources (l : List (Nat × (String × Nat))) : List (Nat × (String × Nat)) :=
  l.foldl (fun acc x => insertRanked x acc) []

/-- The spec's ranking order: strictly larger count first; on equal
counts, the smaller first-seen index first. -/
def rankedBefore (a b : Nat × (String × Nat)) : Prop :=
  b.2.2 < a.2.2 ∨ (a.2.2 = b.2.2 ∧ a.1 < b.1)

/-! ### Concrete packets and captures -/

/-- A packet carrying only a DNS layer (a raw DNS record without a
transport layer). -/
def dnsOnlyPkt : Packet :=
  { time := 0, len := 80, hasTCP := false, hasUDP := false, hasICMP := false
  , hasARP := false, hasDNS := true, hasIP := false, ipSrc := "", ipDst := ""
  , tcpFlags := 0, tcpSport := 0, tcpDport := 0, udpSport := 0, udpDport := 0 }

/-- A bare SYN from 1.1.1.1 to port `port` of 2.2.2.2. -/
def synPkt (port : Nat) : Packet :=
  { time := 0, len := 60, hasTCP := true, hasUDP := false, hasICMP := false
  , hasARP := false, hasDNS := false, hasIP := true
  , ipSrc := "1.1.1.1", ipDst := "2.2.2.2", tcpFlags := 2
  , tcpSport := 1000, tcpDport := port, udpSport := 0, udpDport := 0 }

/-- Twelve bare SYNs from one source to twelve distinct ports. -/
def synCapture : List Packet := (List.range 12).map (fun i => synPkt (i + 1))

/-- A SYN-ACK (flags exactly 0x12) from 2.2.2.2 back to 1.1.1.1. -/
def synAckPkt : Packet :=
  { time := 0, len := 60, hasTCP := true, hasUDP := false, hasICMP := false
  , hasARP := false, hasDNS := false, hasIP := true
  , ipSrc := "2.2.2.2", ipDst := "1.1.1.1", tcpFlags := 18
  , tcpSport := 80, tcpDport := 1000, udpSport := 0, udpDport := 0 }

/-- A layerless packet carrying only a timestamp. -/
def timedPkt (t : ℚ) : Packet :=
  { time := t, len := 60, hasTCP := false, hasUDP := false, hasICMP := false
  , hasARP := false, hasDNS := false, hasIP := false, ipSrc := "", ipDst := ""
  , tcpFlags := 0, tcpSport := 0, tcpDport := 0, udpSport := 0, udpDport := 0 }

/-! ### Counter and multimap lemmas -/

theorem lookupNat_cntAdd (m : List (String × Nat)) (k k₂ : String) :
    lookupNat (cntAdd m k) k₂ = lookupNat m k₂ + (if k = k₂ then 1 else 0) := by
  induction m with
  | nil =>
      simp only [cntAdd, lookupNat]
      by_cases h : k = k₂ <;> simp [h]
  | cons b rest ih =>
      obtain ⟨k₀, n⟩ := b
      simp only [cntAdd]
      by_cases h₀ : k₀ = k
      · subst h₀
        by_cases h₂ : k₀ = k₂ <;> simp [lookupNat, h₂]
      · simp only [if_neg h₀, lookupNat]
        by_cases h₂ : k₀ = k₂
        · subst h₂
          have : ¬ k = k₀ := fun h => h₀ h.symm
          simp [this]
        · simp [h₂, ih]

theorem sumValues_cntAdd (m : List (String × Nat)) (k : String) :
    sumValues (cntAdd m k) = sumValues m + 1 := by
  induction m with
  | nil => simp [cntAdd, sumValues]
  | cons b rest ih =>
      obtain ⟨k₀, n⟩ := b
      by_cases h₀ : k₀ = k
      · simp only [cntAdd, if_pos h₀, sumValues, List.map_cons, List.sum_cons]
        omega
      · simp only [cntAdd, if_neg h₀, sumValues, List.map_cons, List.sum_cons] at ih ⊢
        omega

theorem keys_cntAdd (m : List (String × Nat)) (k : String) :
    (cntAdd m k).map Prod.fst =
      (if k ∈ m.map Prod.fst then m.map Prod.fst else m.map Prod.fst ++ [k]) := by
  induction m with
  | nil => simp [cntAdd]
  | cons b rest ih =>
      obtain ⟨k₀, n⟩ := b
      by_cases h₀ : k₀ = k
      · subst h₀; simp [cntAdd]
      · have hne : ¬ k = k₀ := fun h => h₀ h.symm
        by_cases hmem : k ∈ rest.map Prod.fst <;>
          simp [cntAdd, h₀, hne, hmem, ih]

theorem keys_cntAdd_origin (m : List (String × Nat)) (k k₂ : String)
    (h : k₂ ∈ (cntAdd m k).map Prod.fst) : k₂ ∈ m.map Prod.fst ∨ k₂ = k := by
  rw [keys_cntAdd] at h
  by_cases hmem : k ∈ m.map Prod.fst
  · rw [if_pos hmem] at h; exact Or.inl h
  · rw [if_neg hmem] at h
    rcases List.mem_append.mp h with h | h
    · exact Or.inl h
    · exact Or.inr (List.mem_singleton.mp h)

theorem entriesOf_mmAdd (m : List (String × List SynEntry)) (k : String)
    (e : SynEntry) (k₂ : String) :
    entriesOf (mmAdd m k e) k₂ =
      entriesOf m k₂ ++ (if k = k₂ then [e] else []) := by
  induction m with
  | nil =>
      simp only [mmAdd, entriesOf]
      by_cases h : k = k₂ <;> simp [h]
  | cons b rest ih =>
      obtain ⟨k₀, es⟩ := b
      simp only [mmAdd]
      by_cases h₀ : k₀ = k
      · subst h₀
        by_cases h₂ : k₀ = k₂ <;> simp [entriesOf, h₂]
      · simp only [if_neg h₀, entriesOf]
        by_cases h₂ : k₀ = k₂
        · subst h₂
          have : ¬ k = k₀ := fun h => h₀ h.symm
          simp [this]
        · simp [h₂, ih]

theorem keys_mmAdd (m : List (String × List SynEntry)) (k : String) (e : SynEntry) :
    (mmAdd m k e).map Prod.fst =
      (if k ∈ m.map Prod.fst then m.map Prod.fst else m.map Prod.fst ++ [k]) := by
  induction m with
  | nil => simp [mmAdd]
  | cons b rest ih =>
      obtain ⟨k₀, es⟩ := b
      by_cases h₀ : k₀ = k
      · subst h₀; simp [mmAdd]
      · have hne : ¬ k = k₀ := fun h => h₀ h.symm
        by_cases hmem : k ∈ rest.map Prod.fst <;>
          simp [mmAdd, h₀, hne, hmem, ih]

theorem keys_mmAdd_nodup (m : List (String × List SynEntry)) (k : String)
    (e : SynEntry) (h : (m.map Prod.fst).Nodup) :
    ((mmAdd m k e).map Prod.fst).Nodup := by
  rw [keys_mmAdd]
  by_cases hmem : k ∈ m.map Prod.fst
  · rwa [if_pos hmem]
  · rw [if_neg hmem]
    refine List.Nodup.append h (List.nodup_singleton k) ?_
    intro x hx hk
    rw [List.mem_singleton] at hk
    subst hk
    exact hmem hx

theorem entriesOf_of_mem (m : List (String × List SynEntry)) (k : String)
    (es : List SynEntry) (hnd : (m.map Prod.fst).Nodup) (hmem : (k, es) ∈ m) :
    entriesOf m k = es := by
  induction m with
  | nil => cases hmem
  | cons b rest ih =>
      obtain ⟨k₀, es₀⟩ := b
      simp only [List.map_cons, List.nodup_cons] at hnd
      rcases List.mem_cons.mp hmem with h | h
      · injection h with h1 h2
        subst h1; subst h2
        simp [entriesOf]
      · have hk : k₀ ≠ k := by
          intro he
          exact hnd.1 (he ▸ (List.mem_map.mpr ⟨(k, es), h, rfl⟩))
        simp only [entriesOf, if_neg hk]
        exact ih hnd.2 h

theorem mem_of_entriesOf_ne (m : List (String × List SynEntry)) (k : String)
    (h : entriesOf m k ≠ []) : (k, entriesOf m k) ∈ m := by
  induction m with
  | nil => simp [entriesOf] at h
  | cons b rest ih =>
      obtain ⟨k₀, es₀⟩ := b
      by_cases hk : k₀ = k
      · subst hk
        simp [entriesOf]
      · simp only [entriesOf, if_neg hk] at h ⊢
        exact List.mem_cons_of_mem _ (ih h)

/-! ### Characterization of the detector's accumulation pass -/

theorem bareSyn_eighteen : bareSyn 18 = false := by decide

theorem entriesOf_synStep (st : List (String × List SynEntry) × List (String × Nat))
    (p : Packet) (ip : String) :
    entriesOf (synStep st p).1 ip =
      entriesOf st.1 ip ++ (if isBareSynFrom ip p then [synEntryOf p] else []) := by
  by_cases htcp : p.hasTCP <;> by_cases hip : p.hasIP <;>
    by_cases hb : bareSyn p.tcpFlags <;> by_cases hsrc : p.ipSrc = ip <;>
      simp [synStep, isBareSynFrom, htcp, hip, hb, hsrc, entriesOf_mmAdd,
        synEntryOf] <;> split <;> rfl

theorem lookupNat_synStep (st : List (String × List SynEntry) × List (String × Nat))
    (p : Packet) (ip : String) :
    lookupNat (synStep st p).2 ip =
      lookupNat st.2 ip + (if isSynAckTo ip p then 1 else 0) := by
  by_cases htcp : p.hasTCP <;> by_cases hip : p.hasIP <;>
    by_cases hb : bareSyn p.tcpFlags <;> by_cases h18 : p.tcpFlags = 18 <;>
      by_cases hdst : p.ipDst = ip <;>
        first
        | (rw [h18] at hb; exact absurd hb (by decide))
        | simp [synStep, isSynAckTo, htcp, hip, hb, h18, hdst, bareSyn_eighteen,
            lookupNat_cntAdd]

theorem synState_entries (pkts : List Packet) (ip : String) :
    entriesOf (synState pkts).1 ip =
      (pkts.filter (isBareSynFrom ip)).map synEntryOf := by
  have main : ∀ (l : List Packet)
      (st : List (String × List SynEntry) × List (String × Nat)),
      entriesOf (l.foldl synStep st).1 ip =
        entriesOf st.1 ip ++ (l.filter (isBareSynFrom ip)).map synEntryOf := by
    intro l
    induction l with
    | nil => intro st; simp
    | cons p ps ih =>
        intro st
        rw [List.foldl_cons, ih, List.filter_cons]
        by_cases h : isBareSynFrom ip p <;>
          simp [h, entriesOf_synStep]
  have h0 : entriesOf ([] : List (String × List SynEntry)) ip = [] := rfl
  simpa [synState, h0] using main pkts ([], [])

theorem synState_acks (pkts : List Packet) (ip : String) :
    lookupNat (synState pkts).2 ip = synAckCountSpec pkts ip := by
  have main : ∀ (l : List Packet)
      (st : List (String × List SynEntry) × List (String × Nat)),
      lookupNat (l.foldl synStep st).2 ip =
        lookupNat st.2 ip + (l.filter (isSynAckTo ip)).length := by
    intro l
    induction l with
    | nil => intro st; simp
    | cons p ps ih =>
        intro st
        rw [List.foldl_cons, ih, List.filter_cons]
        by_cases h : isSynAckTo ip p
        · simp [h, lookupNat_synStep]
          omega
        · simp [h, lookupNat_synStep]
  have h0 : lookupNat ([] : List (String × Nat)) ip = 0 := rfl
  simpa [synState, synAckCountSpec, h0] using main pkts ([], [])

theorem synStep_keys_nodup (st : List (String × List SynEntry) × List (String × Nat))
    (p : Packet) (h : (st.1.map Prod.fst).Nodup) :
    (((synStep st p).1).map Prod.fst).Nodup := by
  unfold synStep
  split
  · split
    · exact keys_mmAdd_nodup _ _ _ h
    · split
      · exact h
      · exact h
  · exact h

theorem synState_keys_nodup (pkts : List Packet) :
    (((synState pkts).1).map Prod.fst).Nodup := by
  have main : ∀ (l : List Packet)
      (st : List (String × List SynEntry) × List (String × Nat)),
      (st.1.map Prod.fst).Nodup → (((l.foldl synStep st).1).map Prod.fst).Nodup := by
    intro l
    induction l with
    | nil => intro st h; simpa using h
    | cons p ps ih =>
        intro st h
        rw [List.foldl_cons]
        exact ih _ (synStep_keys_nodup st p h)
  exact main pkts ([], []) (by simp)

/-! ### Injectivity of the `"ip:port"` target keys

The detector counts distinct targets through the string key
`f"{dst_ip}:{dst_port}"`. Since the decimal digits of a port contain no
colon, the final colon of the key splits it unambiguously, so the key
is injective on `(dst_ip, dst_port)` pairs and the count of distinct
keys is the count of distinct pairs. -/

theorem digitChar_big (m : Nat) (hm : 15 < m) : Nat.digitChar m = Char.ofNat 42 := by
  unfold Nat.digitChar
  repeat rw [if_neg (by omega)]

theorem digitChar_ne_colon (n : Nat) : Nat.digitChar n ≠ ':' := by
  by_cases h : n < 16
  · interval_cases n <;> decide
  · rw [digitChar_big n (by omega)]
    decide

theorem digitChar_val (d : Nat) (hd : d < 10) :
    charDigit (Nat.digitChar d) = d := by
  interval_cases d <;> decide

theorem toDigitsCore_append (b f n : Nat) (ds : List Char) :
    Nat.toDigitsCore b f n ds = Nat.toDigitsCore b f n [] ++ ds := by
  induction f generalizing n ds with
  | zero => simp [Nat.toDigitsCore]
  | succ f ih =>
      simp only [Nat.toDigitsCore]
      by_cases h : n / b = 0
      · simp [h]
      · rw [if_neg h, if_neg h, ih (n / b) (Nat.digitChar (n % b) :: ds),
          ih (n / b) [Nat.digitChar (n % b)]]
        simp

theorem toDigitsCore_no_colon (f : Nat) : ∀ (n : Nat) (ds : List Char),
    ':' ∉ ds → ':' ∉ Nat.toDigitsCore 10 f n ds := by
  induction f with
  | zero => intro n ds h; simpa [Nat.toDigitsCore] using h
  | succ f ih =>
      intro n ds h
      simp only [Nat.toDigitsCore]
      have hne : ':' ≠ Nat.digitChar (n % 10) := (digitChar_ne_colon _).symm
      by_cases hd : n / 10 = 0
      · rw [if_pos hd]
        simp [h, hne]
      · rw [if_neg hd]
        exact ih _ _ (by simp [h, hne])

theorem digitsVal_append_digit (l : List Char) (c : Char) :
    digitsVal (l ++ [c]) = 10 * digitsVal l + charDigit c := by
  simp [digitsVal, List.foldl_append]

theorem toDigits_val (f : Nat) : ∀ n : Nat, n < f →
    digitsVal (Nat.toDigitsCore 10 f n []) = n := by
  induction f with
  | zero => omega
  | succ f ih =>
      intro n hn
      simp only [Nat.toDigitsCore]
      by_cases hd : n / 10 = 0
      · rw [if_pos hd]
        simp only [digitsVal, List.foldl_cons, List.foldl_nil]
        rw [digitChar_val (n % 10) (by omega)]
        omega
      · rw [if_neg hd, toDigitsCore_append, digitsVal_append_digit,
          ih (n / 10) (by omega), digitChar_val (n % 10) (by omega)]
        omega

theorem natRepr_injective : Function.Injective Nat.repr := by
  intro m n h
  have hd : Nat.toDigitsCore 10 (m + 1) m [] = Nat.toDigitsCore 10 (n + 1) n [] := by
    have hdata := congrArg String.data h
    simpa [Nat.repr, Nat.toDigits, List.asString] using hdata
  have hm := toDigits_val (m + 1) m (by omega)
  have hn := toDigits_val (n + 1) n (by omega)
  rw [← hm, ← hn, hd]

theorem append_sep_inj (c : Char) :
    ∀ (l₁ l₂ r₁ r₂ : List Char), c ∉ r₁ → c ∉ r₂ →
      l₁ ++ c :: r₁ = l₂ ++ c :: r₂ → l₁ = l₂ ∧ r₁ = r₂ := by
  intro l₁
  induction l₁ with
  | nil =>
      intro l₂ r₁ r₂ h₁ h₂ he
      cases l₂ with
      | nil => simpa using he
      | cons x xs =>
          simp only [List.nil_append, List.cons_append, List.cons.injEq] at he
          exact absurd (he.2 ▸ List.mem_append_right xs (List.mem_cons_self c r₂)) h₁
  | cons x xs ih =>
      intro l₂ r₁ r₂ h₁ h₂ he
      cases l₂ with
      | nil =>
          simp only [List.nil_append, List.cons_append, List.cons.injEq] at he
          exact absurd (he.2.symm ▸ List.mem_append_right xs (List.mem_cons_self c r₁)) h₂
      | cons y ys =>
          simp only [List.cons_append, List.cons.injEq] at he
          obtain ⟨hxy, htail⟩ := he
          obtain ⟨hl, hr⟩ := ih ys r₁ r₂ h₁ h₂ htail
          exact ⟨by rw [hxy, hl], hr⟩

theorem colon_not_mem_repr (n : Nat) : ':' ∉ (Nat.repr n).data := by
  have : (Nat.repr n).data = Nat.toDigitsCore 10 (n + 1) n [] := rfl
  rw [this]
  exact toDigitsCore_no_colon (n + 1) n [] (by simp)

theorem strKey_injective : Function.Injective strKey := by
  intro a b h
  have hdata : a.1.data ++ ':' :: (Nat.repr a.2).data
      = b.1.data ++ ':' :: (Nat.repr b.2).data := by
    have hd := congrArg String.data h
    simpa [strKey, String.instAppend, String.append, toString] using hd
  obtain ⟨h1, h2⟩ := append_sep_inj ':' a.1.data b.1.data _ _
    (colon_not_mem_repr a.2) (colon_not_mem_repr b.2) hdata
  have hfst : a.1 = b.1 := String.ext h1
  have hsnd : a.2 = b.2 := natRepr_injective (String.ext h2)
  exact Prod.ext hfst hsnd

theorem dedup_length_map_inj {α β : Type} [DecidableEq α] [DecidableEq β]
    (f : α → β) (hf : Function.Injective f) (l : List α) :
    ((l.map f).dedup).length = l.dedup.length := by
  induction l with
  | nil => simp
  | cons x xs ih =>
      by_cases hx : x ∈ xs
      · rw [List.dedup_cons_of_mem hx, List.map_cons,
          List.dedup_cons_of_mem (List.mem_map_of_mem f hx)]
        exact ih
      · have hfx : f x ∉ xs.map f := by
          intro hmem
          obtain ⟨y, hy, hfy⟩ := List.mem_map.mp hmem
          exact hx (hf hfy ▸ hy)
        rw [List.dedup_cons_of_not_mem hx, List.map_cons,
          List.dedup_cons_of_not_mem hfx]
        simpa using ih

/-! ### Characterization of alert emission -/

theorem synAlertOf_some_iff (acks : List (String × Nat))
    (b : String × List SynEntry) (a : Alert) :
    synAlertOf acks b = some a ↔
      ((10 ≤ b.2.length ∧
          ((lookupNat acks b.1 : ℚ) / (b.2.length : ℚ)) < 1/5) ∧
        a = { source_ip := b.1
            , syn_count := b.2.length
            , syn_ack_count := lookupNat acks b.1
            , ack_ratio := round2 ((lookupNat acks b.1 : ℚ) / (b.2.length : ℚ))
            , unique_targets := ((b.2.map targetKey).dedup).length
            , severity := if 50 < b.2.length then "high" else "medium" }) := by
  simp only [synAlertOf]
  by_cases h0 : b.2.length = 0
  · simp [h0]
  · rw [if_neg h0]
    simp only [if_neg h0]
    by_cases hc : 10 ≤ b.2.length ∧
        ((lookupNat acks b.1 : ℚ) / (b.2.length : ℚ)) < 1/5
    · rw [if_pos hc]
      simp only [Option.some.injEq]
      exact ⟨fun h => ⟨hc, h.symm⟩, fun h => h.2.symm⟩
    · rw [if_neg hc]
      constructor
      · intro h
        exact Option.noConfusion h
      · intro h
        exact absurd h.1 hc

theorem targetKey_synEntryOf (p : Packet) :
    targetKey (synEntryOf p) = strKey (p.ipDst, p.tcpDport) := rfl

/-- C1: for every capture, the SYN-flood detector alerts on a source IP
iff its bare-SYN count is at least 10 and its ACK ratio (SYN-ACKs seen
for that IP as a destination, divided by its bare-SYN count) is
strictly below 0.2; and each alert carries the source IP, the bare-SYN
count, the SYN-ACK count, the 2-decimal-rounded ratio, the number of
distinct `(dst_ip, dst_port)` targets among that source's bare SYNs,
and severity "high" exactly when the bare-SYN count exceeds 50,
otherwise "medium". -/
theorem syn_flood_alert_iff (pkts : List Packet) (ip : String) :
    ((∃ a ∈ detect_syn_flood pkts, a.source_ip = ip) ↔
      (10 ≤ bareSynCount pkts ip ∧
        ((synAckCountSpec pkts ip : ℚ) / (bareSynCount pkts ip : ℚ)) < 1/5)) ∧
    (∀ a ∈ detect_syn_flood pkts, a.source_ip = ip →
      a.syn_count = bareSynCount pkts ip ∧
      a.syn_ack_count = synAckCountSpec pkts ip ∧
      a.ack_ratio =
        round2 ((synAckCountSpec pkts ip : ℚ) / (bareSynCount pkts ip : ℚ)) ∧
      a.unique_targets = bareSynTargets pkts ip ∧
      a.severity = (if 50 < bareSynCount pkts ip then "high" else "medium")) := by
  have hent := synState_entries pkts ip
  have hlen : (entriesOf (synState pkts).1 ip).length = bareSynCount pkts ip := by
    rw [hent, List.length_map]
    rfl
  have hack := synState_acks pkts ip
  have hnd := synState_keys_nodup pkts
  have hdet : detect_syn_flood pkts =
      (synState pkts).1.filterMap (synAlertOf (synState pkts).2) := rfl
  constructor
  · constructor
    · rintro ⟨a, ha, hsrc⟩
      rw [hdet, List.mem_filterMap] at ha
      obtain ⟨b, hb, hfb⟩ := ha
      rw [synAlertOf_some_iff] at hfb
      obtain ⟨⟨hc1, hc2⟩, hae⟩ := hfb
      have hb1 : b.1 = ip := by rw [hae] at hsrc; exact hsrc
      have hbe : b.2 = entriesOf (synState pkts).1 ip := by
        rw [← hb1]
        exact (entriesOf_of_mem _ b.1 b.2 hnd (by rw [Prod.mk.eta]; exact hb)).symm
      rw [hbe, hlen] at hc1 hc2
      rw [hb1, hack] at hc2
      exact ⟨hc1, hc2⟩
    · rintro ⟨hc1, hc2⟩
      have hne : entriesOf (synState pkts).1 ip ≠ [] := by
        intro h
        rw [h] at hlen
        simp only [List.length_nil] at hlen
        omega
      have hmem := mem_of_entriesOf_ne _ ip hne
      refine ⟨{ source_ip := ip
              , syn_count := (entriesOf (synState pkts).1 ip).length
              , syn_ack_count := lookupNat (synState pkts).2 ip
              , ack_ratio := round2 ((lookupNat (synState pkts).2 ip : ℚ) /
                  ((entriesOf (synState pkts).1 ip).length : ℚ))
              , unique_targets :=
                  (((entriesOf (synState pkts).1 ip).map targetKey).dedup).length
              , severity := if 50 < (entriesOf (synState pkts).1 ip).length
                  then "high" else "medium" }, ?_, rfl⟩
      rw [hdet, List.mem_filterMap]
      refine ⟨(ip, entriesOf (synState pkts).1 ip), hmem, ?_⟩
      rw [synAlertOf_some_iff]
      refine ⟨⟨?_, ?_⟩, rfl⟩
      · simpa [hlen] using hc1
      · simpa [hlen, hack] using hc2
  · intro a ha hsrc
    rw [hdet, List.mem_filterMap] at ha
    obtain ⟨b, hb, hfb⟩ := ha
    rw [synAlertOf_some_iff] at hfb
    obtain ⟨⟨hc1, hc2⟩, hae⟩ := hfb
    have hb1 : b.1 = ip := by rw [hae] at hsrc; exact hsrc
    have hbe : b.2 = entriesOf (synState pkts).1 ip := by
      rw [← hb1]
      exact (entriesOf_of_mem _ b.1 b.2 hnd (by rw [Prod.mk.eta]; exact hb)).symm
    have htargets : ((b.2.map targetKey).dedup).length = bareSynTargets pkts ip := by
      rw [hbe, hent, List.map_map]
      have hcomp : (targetKey ∘ synEntryOf) =
          (strKey ∘ fun p => (p.ipDst, p.tcpDport)) := by
        funext q
        rfl
      rw [hcomp, ← List.map_map]
      rw [dedup_length_map_inj strKey strKey_injective]
      rfl
    rw [hae]
    refine ⟨?_, ?_, ?_, ?_, ?_⟩
    · rw [hbe, hlen]
    · rw [hb1, hack]
    · rw [hbe, hlen, hb1, hack]
    · exact htargets
    · rw [hbe, hlen]

theorem bareSyn_true_iff (f : Nat) :
    bareSyn f = true ↔ (f &&& 2 ≠ 0 ∧ f &&& 16 = 0) := by
  simp [bareSyn]

theorem isSynAckTo_true_iff (ip : String) (p : Packet) :
    isSynAckTo ip p = true ↔
      (p.hasTCP = true ∧ p.hasIP = true ∧ p.tcpFlags = 18 ∧ p.ipDst = ip) := by
  simp [isSynAckTo, and_assoc]

theorem isBareSynFrom_true_iff (ip : String) (p : Packet) :
    isBareSynFrom ip p = true ↔
      (p.hasTCP = true ∧ p.hasIP = true ∧
        (p.tcpFlags &&& 2 ≠ 0 ∧ p.tcpFlags &&& 16 = 0) ∧ p.ipSrc = ip) := by
  simp [isBareSynFrom, bareSyn, and_assoc]

/-- C2: in the SYN-flood detector, a packet with both layers increments
the SYN-ACK counter of its destination IP iff its flags are exactly
`SYN|ACK = 0x12` (no other bits), and is recorded as a bare SYN of its
source IP iff the SYN bit is set and the ACK bit is clear; each
alert's `syn_ack_count` is the SYN-ACK counter looked up under the
alerting source IP in its role as a destination anywhere in the
capture, defaulting to 0 when absent. -/
theorem syn_flood_flag_classification :
    (∀ (st : List (String × List SynEntry) × List (String × Nat)) (p : Packet)
        (ip : String), p.hasTCP = true → p.hasIP = true →
      (lookupNat (synStep st p).2 ip =
        lookupNat st.2 ip + (if p.tcpFlags = 18 ∧ p.ipDst = ip then 1 else 0)) ∧
      ((entriesOf (synStep st p).1 ip).length =
        (entriesOf st.1 ip).length +
          (if (p.tcpFlags &&& 2 ≠ 0 ∧ p.tcpFlags &&& 16 = 0) ∧ p.ipSrc = ip
            then 1 else 0))) ∧
    (∀ (pkts : List Packet), ∀ a ∈ detect_syn_flood pkts,
      a.syn_ack_count = lookupNat (synState pkts).2 a.source_ip ∧
      a.syn_ack_count = synAckCountSpec pkts a.source_ip) := by
  constructor
  · intro st p ip htcp hip
    have hiffA : (isSynAckTo ip p = true) ↔ (p.tcpFlags = 18 ∧ p.ipDst = ip) := by
      rw [isSynAckTo_true_iff]
      simp [htcp, hip]
    have hiffB : (isBareSynFrom ip p = true) ↔
        ((p.tcpFlags &&& 2 ≠ 0 ∧ p.tcpFlags &&& 16 = 0) ∧ p.ipSrc = ip) := by
      rw [isBareSynFrom_true_iff]
      simp [htcp, hip]
    constructor
    · rw [lookupNat_synStep]
      congr 1
      by_cases hb : isSynAckTo ip p = true
      · rw [if_pos hb, if_pos (hiffA.mp hb)]
      · rw [if_neg hb, if_neg (fun h => hb (hiffA.mpr h))]
    · rw [entriesOf_synStep, List.length_append]
      congr 1
      by_cases hb : isBareSynFrom ip p = true
      · rw [if_pos hb, if_pos (hiffB.mp hb)]
        rfl
      · rw [if_neg hb, if_neg (fun h => hb (hiffB.mpr h))]
        rfl
  · intro pkts a ha
    have hdet : detect_syn_flood pkts =
        (synState pkts).1.filterMap (synAlertOf (synState pkts).2) := rfl
    rw [hdet, List.mem_filterMap] at ha
    obtain ⟨b, hb, hfb⟩ := ha
    rw [synAlertOf_some_iff] at hfb
    obtain ⟨-, hae⟩ := hfb
    have h1 : a.syn_ack_count = lookupNat (synState pkts).2 a.source_ip := by
      rw [hae]
    exact ⟨h1, by rw [h1, synState_acks]⟩

/-! ### Aggregator lemmas -/

theorem aggregate_proto_sum (pkts : List Packet) :
    sumValues (aggregate pkts).proto = pkts.length := by
  have main : ∀ (l : List Packet) (st : AggState),
      sumValues ((l.foldl aggStep st).proto) = sumValues st.proto + l.length := by
    intro l
    induction l with
    | nil => intro st; simp
    | cons p ps ih =>
        intro st
        rw [List.foldl_cons, ih]
        have hstep : sumValues (aggStep st p).proto = sumValues st.proto + 1 :=
          sumValues_cntAdd st.proto (tallyLabel p)
        rw [hstep, List.length_cons]
        omega
  have h0 : sumValues (⟨[], [], [], 0⟩ : AggState).proto = 0 := rfl
  rw [aggregate, main pkts ⟨[], [], [], 0⟩, h0]
  omega

theorem aggregate_bytes (pkts : List Packet) :
    (aggregate pkts).bytes = (pkts.map Packet.len).sum := by
  have main : ∀ (l : List Packet) (st : AggState),
      (l.foldl aggStep st).bytes = st.bytes + (l.map Packet.len).sum := by
    intro l
    induction l with
    | nil => intro st; simp
    | cons p ps ih =>
        intro st
        rw [List.foldl_cons, ih]
        simp [aggStep]
        omega
  rw [aggregate, main pkts ⟨[], [], [], 0⟩]
  simp

theorem foldl_aggStep_srcCnt (l : List Packet) :
    ∀ st : AggState, (l.foldl aggStep st).srcCnt =
      (l.filter (fun p => p.hasIP)).foldl (fun m p => cntAdd m p.ipSrc) st.srcCnt := by
  induction l with
  | nil => intro st; simp
  | cons p ps ih =>
      intro st
      rw [List.foldl_cons, ih, List.filter_cons]
      by_cases h : p.hasIP
      · simp [h, aggStep]
      · simp [h, aggStep]

theorem foldl_aggStep_dstCnt (l : List Packet) :
    ∀ st : AggState, (l.foldl aggStep st).dstCnt =
      (l.filter (fun p => p.hasIP)).foldl (fun m p => cntAdd m p.ipDst) st.dstCnt := by
  induction l with
  | nil => intro st; simp
  | cons p ps ih =>
      intro st
      rw [List.foldl_cons, ih, List.filter_cons]
      by_cases h : p.hasIP
      · simp [h, aggStep]
      · simp [h, aggStep]

theorem aggregate_srcCnt_filter (pkts : List Packet) :
    (aggregate pkts).srcCnt = (aggregate (pkts.filter (fun p => p.hasIP))).srcCnt := by
  rw [aggregate, aggregate, foldl_aggStep_srcCnt, foldl_aggStep_srcCnt,
    List.filter_filter]
  simp

theorem aggregate_dstCnt_filter (pkts : List Packet) :
    (aggregate pkts).dstCnt = (aggregate (pkts.filter (fun p => p.hasIP))).dstCnt := by
  rw [aggregate, aggregate, foldl_aggStep_dstCnt, foldl_aggStep_dstCnt,
    List.filter_filter]
  simp

theorem srcCnt_key_origin (pkts : List Packet) (k : String)
    (h : k ∈ (aggregate pkts).srcCnt.map Prod.fst) :
    ∃ p ∈ pkts, p.hasIP = true ∧ p.ipSrc = k := by
  have main : ∀ (l : List Packet) (m : List (String × Nat)),
      k ∈ (l.foldl (fun m p => cntAdd m p.ipSrc) m).map Prod.fst →
      k ∈ m.map Prod.fst ∨ ∃ p ∈ l, p.ipSrc = k := by
    intro l
    induction l with
    | nil => intro m hm; exact Or.inl hm
    | cons p ps ih =>
        intro m hm
        rw [List.foldl_cons] at hm
        rcases ih _ hm with hmem | ⟨q, hq, hqs⟩
        · rcases keys_cntAdd_origin m p.ipSrc k hmem with h1 | h1
          · exact Or.inl h1
          · exact Or.inr ⟨p, List.mem_cons_self p ps, h1.symm⟩
        · exact Or.inr ⟨q, List.mem_cons_of_mem p hq, hqs⟩
  rw [aggregate, foldl_aggStep_srcCnt] at h
  rcases main _ _ h with h1 | ⟨p, hp, hps⟩
  · simp at h1
  · obtain ⟨hp1, hp2⟩ := List.mem_filter.mp hp
    exact ⟨p, hp1, by simpa using hp2, hps⟩

theorem aggregate_srcCnt_keys (pkts : List Packet) :
    (aggregate pkts).srcCnt.map Prod.fst = firstSeenSources pkts := by
  have main : ∀ (l : List Packet) (st : AggState),
      (l.foldl aggStep st).srcCnt.map Prod.fst =
        l.foldl (fun acc p =>
          if p.hasIP then (if p.ipSrc ∈ acc then acc else acc ++ [p.ipSrc]) else acc)
          (st.srcCnt.map Prod.fst) := by
    intro l
    induction l with
    | nil => intro st; simp
    | cons p ps ih =>
        intro st
        rw [List.foldl_cons, List.foldl_cons, ih]
        have hstep : (aggStep st p).srcCnt.map Prod.fst =
            (if p.hasIP then
              (if p.ipSrc ∈ st.srcCnt.map Prod.fst then st.srcCnt.map Prod.fst
                else st.srcCnt.map Prod.fst ++ [p.ipSrc])
              else st.srcCnt.map Prod.fst) := by
          by_cases hip : p.hasIP
          · simp only [aggStep, if_pos hip, keys_cntAdd]
          · simp [aggStep, hip]
        rw [hstep]
  rw [aggregate, firstSeenSources, main pkts ⟨[], [], [], 0⟩]
  rfl

/-! ### Ranking of top talkers

`Counter.most_common(5)` is a stable descending sort by count followed
by truncation; `sortTalkers` implements the stable sort. The spec-side
ranking `rankSources` sorts the enumerated counter items by the strict
total order `rankedBefore` (count descending, ties by first-seen
index); stability makes the two agree. -/

theorem rankedBefore_trans {a b c : Nat × (String × Nat)}
    (hab : rankedBefore a b) (hbc : rankedBefore b c) : rankedBefore a c := by
  rcases hab with h1 | ⟨h1, h1i⟩ <;> rcases hbc with h2 | ⟨h2, h2i⟩
  · exact Or.inl (lt_trans h2 h1)
  · exact Or.inl (h2 ▸ h1)
  · exact Or.inl (by omega)
  · exact Or.inr ⟨by omega, by omega⟩

theorem mem_insertRanked (x y : Nat × (String × Nat))
    (l : List (Nat × (String × Nat))) (h : y ∈ insertRanked x l) :
    y = x ∨ y ∈ l := by
  induction l with
  | nil => simpa [insertRanked] using h
  | cons b t ih =>
      rw [insertRanked] at h
      split at h
      · rcases List.mem_cons.mp h with h1 | h1
        · exact Or.inl h1
        · exact Or.inr h1
      · rcases List.mem_cons.mp h with h1 | h1
        · exact Or.inr (h1 ▸ List.mem_cons_self b t)
        · rcases ih h1 with h2 | h2
          · exact Or.inl h2
          · exact Or.inr (List.mem_cons_of_mem b h2)

theorem insertRanked_perm (x : Nat × (String × Nat))
    (l : List (Nat × (String × Nat))) : List.Perm (insertRanked x l) (x :: l) := by
  induction l with
  | nil => rfl
  | cons b t ih =>
      rw [insertRanked]
      split
      · exact List.Perm.refl _
      · exact List.Perm.trans (List.Perm.cons b ih) (List.Perm.swap x b t)

theorem rankSources_perm (l : List (Nat × (String × Nat))) :
    List.Perm (rankSources l) l := by
  have main : ∀ (xs acc : List (Nat × (String × Nat))),
      List.Perm (xs.foldl (fun acc x => insertRanked x acc) acc) (acc ++ xs) := by
    intro xs
    induction xs with
    | nil => intro acc; simp
    | cons x t ih =>
        intro acc
        rw [List.foldl_cons]
        refine List.Perm.trans (ih _) ?_
        refine List.Perm.trans (List.Perm.append_right t (insertRanked_perm x acc)) ?_
        exact (List.perm_middle).symm
  simpa using main l []

theorem insertRanked_pairwise (x : Nat × (String × Nat))
    (acc : List (Nat × (String × Nat))) (hp : acc.Pairwise rankedBefore)
    (hx : ∀ e ∈ acc, e.1 < x.1) :
    (insertRanked x acc).Pairwise rankedBefore := by
  induction acc with
  | nil => simp [insertRanked]
  | cons h t ih =>
      rw [List.pairwise_cons] at hp
      obtain ⟨hht, hpt⟩ := hp
      rw [insertRanked]
      by_cases hc : h.2.2 < x.2.2 ∨ (x.2.2 = h.2.2 ∧ x.1 < h.1)
      · rw [if_pos hc]
        refine List.Pairwise.cons ?_ (List.Pairwise.cons hht hpt)
        intro y hy
        rcases List.mem_cons.mp hy with rfl | hyt
        · exact hc
        · exact rankedBefore_trans hc (hht y hyt)
      · rw [if_neg hc]
        refine List.Pairwise.cons ?_
          (ih hpt (fun e he => hx e (List.mem_cons_of_mem h he)))
        intro y hy
        rcases mem_insertRanked x y t hy with rfl | hyt
        · have hh1 : h.1 < y.1 := hx h (List.mem_cons_self h t)
          rcases Nat.lt_trichotomy y.2.2 h.2.2 with h1 | h1 | h1
          · exact Or.inl h1
          · exact Or.inr ⟨h1.symm, hh1⟩
          · exact absurd (Or.inl h1) hc
        · exact hht y hyt

theorem rankSources_pairwise (xs : List (String × Nat)) :
    (rankSources xs.enum).Pairwise rankedBefore := by
  have main : ∀ (l : List (String × Nat)) (n : Nat)
      (acc : List (Nat × (String × Nat))), acc.Pairwise rankedBefore →
      (∀ e ∈ acc, e.1 < n) →
      (((l.enumFrom n).foldl (fun acc x => insertRanked x acc) acc).Pairwise
          rankedBefore) := by
    intro l
    induction l with
    | nil => intro n acc hp _; simpa using hp
    | cons x t ih =>
        intro n acc hp hlt
        rw [List.enumFrom_cons, List.foldl_cons]
        refine ih (n + 1) _ (insertRanked_pairwise (n, x) acc hp hlt) ?_
        intro e he
        rcases mem_insertRanked (n, x) e acc he with rfl | hmem
        · omega
        · exact Nat.lt_succ_of_lt (hlt e hmem)
  rw [List.enum]
  exact main xs 0 [] List.Pairwise.nil (by simp)

theorem insertRanked_snd (i : Nat) (x : String × Nat)
    (acc : List (Nat × (String × Nat))) (hlt : ∀ e ∈ acc, e.1 < i) :
    (insertRanked (i, x) acc).map Prod.snd = insertTalker x (acc.map Prod.snd) := by
  induction acc with
  | nil => rfl
  | cons h t ih =>
      have hh : h.1 < i := hlt h (List.mem_cons_self h t)
      have hcond : (h.2.2 < x.2 ∨ (x.2 = h.2.2 ∧ i < h.1)) ↔ (h.2.2 < x.2) := by
        constructor
        · rintro (hc | ⟨-, hc⟩)
          · exact hc
          · omega
        · exact Or.inl
      rw [insertRanked]
      by_cases hc : h.2.2 < x.2
      · rw [if_pos (hcond.mpr hc)]
        simp only [List.map_cons, insertTalker]
        rw [if_pos hc]
      · rw [if_neg (fun hx => hc (hcond.mp hx))]
        simp only [List.map_cons, insertTalker]
        rw [if_neg hc, ih (fun e he => hlt e (List.mem_cons_of_mem h he))]

theorem sortTalkers_eq_rankSources (l : List (String × Nat)) :
    sortTalkers l = (rankSources l.enum).map Prod.snd := by
  have main : ∀ (xs : List (String × Nat)) (n : Nat) (acc : List (String × Nat))
      (accR : List (Nat × (String × Nat))), accR.map Prod.snd = acc →
      (∀ e ∈ accR, e.1 < n) →
      (xs.foldl (fun acc x => insertTalker x acc) acc) =
        ((xs.enumFrom n).foldl (fun acc x => insertRanked x acc) accR).map
          Prod.snd := by
    intro xs
    induction xs with
    | nil => intro n acc accR hmap _; simpa using hmap.symm
    | cons x t ih =>
        intro n acc accR hmap hlt
        rw [List.enumFrom_cons, List.foldl_cons, List.foldl_cons]
        refine ih (n + 1) _ _ ?_ ?_
        · rw [insertRanked_snd n x accR hlt, hmap]
        · intro e he
          rcases mem_insertRanked (n, x) e accR he with rfl | hmem
          · omega
          · exact Nat.lt_succ_of_lt (hlt e hmem)
  rw [List.enum, sortTalkers]
  exact main l 0 [] [] rfl (by simp)

/-! ### Projections of `analyze_packets` -/

theorem analyze_packets_total (pkts : List Packet) :
    (analyze_packets pkts).basic_stats.total_packets = pkts.length := by
  cases pkts <;> rfl

theorem analyze_packets_proto (pkts : List Packet) :
    (analyze_packets pkts).protocol_stats = (aggregate pkts).proto := by
  cases pkts <;> rfl

theorem analyze_packets_top (pkts : List Packet) :
    (analyze_packets pkts).top_talkers =
      (sortTalkers (aggregate pkts).srcCnt).take 5 := by
  cases pkts <;> rfl

theorem analyze_packets_bytes (pkts : List Packet) :
    (analyze_packets pkts).basic_stats.total_bytes = (aggregate pkts).bytes := by
  cases pkts <;> rfl

theorem analyze_packets_unique (pkts : List Packet) :
    (analyze_packets pkts).basic_stats.unique_ips =
      ((((aggregate pkts).srcCnt.map Prod.fst) ++
        ((aggregate pkts).dstCnt.map Prod.fst)).dedup).length := by
  cases pkts <;> rfl

theorem analyze_packets_details (p : Packet) (ps : List Packet) :
    (analyze_packets (p :: ps)).packet_details =
      ((p :: ps).take 10).map (previewEntry p.time) := rfl

/-- C3: every packet lands in exactly one tally bucket under the
precedence TCP, UDP, ICMP, ARP, DNS, Other, so the tally values sum to
`total_packets`, which equals the sequence length; a TCP packet always
tallies "TCP" and a non-TCP UDP packet always tallies "UDP", whatever
other layers (such as DNS) it carries. -/
theorem protocol_tally_partition (pkts : List Packet) (hne : pkts ≠ []) :
    (analyze_packets pkts).basic_stats.total_packets = pkts.length ∧
    sumValues (analyze_packets pkts).protocol_stats = pkts.length ∧
    (∀ p : Packet, tallyLabel p ∈ ["TCP", "UDP", "ICMP", "ARP", "DNS", "Other"]) ∧
    (∀ p : Packet, p.hasTCP = true → tallyLabel p = "TCP") ∧
    (∀ p : Packet, p.hasTCP = false → p.hasUDP = true → tallyLabel p = "UDP") := by
  refine ⟨analyze_packets_total pkts, ?_, ?_, ?_, ?_⟩
  · rw [analyze_packets_proto]
    exact aggregate_proto_sum pkts
  · intro p
    unfold tallyLabel
    split_ifs <;> simp
  · intro p h
    simp [tallyLabel, h]
  · intro p h1 h2
    simp [tallyLabel, h1, h2]

/-- C6: `top_talkers` equals the ranking of the per-source counter
items by count descending with ties broken by first-seen position,
truncated to at most 5: the code's stable sort agrees with the
`rankedBefore`-sorted permutation of the items, and the counter items
are listed in first-seen order of the sources. -/
theorem top_talkers_ranking (pkts : List Packet) :
    (analyze_packets pkts).top_talkers =
      ((rankSources ((aggregate pkts).srcCnt.enum)).map Prod.snd).take 5 ∧
    List.Perm (rankSources ((aggregate pkts).srcCnt.enum))
      ((aggregate pkts).srcCnt.enum) ∧
    (rankSources ((aggregate pkts).srcCnt.enum)).Pairwise rankedBefore ∧
    (aggregate pkts).srcCnt.map Prod.fst = firstSeenSources pkts := by
  refine ⟨?_, rankSources_perm _, rankSources_pairwise _,
    aggregate_srcCnt_keys pkts⟩
  rw [analyze_packets_top, sortTalkers_eq_rankSources]

/-- C9: aggregation is deterministic and idempotent: two runs of
`analyze_packets` on the same sequence produce equal CaptureSummary,
ProtocolTally and TopTalkers values. In this pure embedding the two
runs are the same term, so the equalities are definitional — the
Python code likewise reads no state outside its own local counters. -/
theorem aggregation_idempotent (pkts : List Packet) :
    (analyze_packets pkts).basic_stats = (analyze_packets pkts).basic_stats ∧
    (analyze_packets pkts).protocol_stats =
      (analyze_packets pkts).protocol_stats ∧
    (analyze_packets pkts).top_talkers = (analyze_packets pkts).top_talkers :=
  ⟨rfl, rfl, rfl⟩

/-- C10: a packet without an IP layer previews with "N/A" as source and
destination, adds nothing to the per-source or per-destination
counters or to `unique_ips` (top talkers can only name sources of IP
packets), yet still counts toward `total_packets`, `total_bytes` and
the protocol tally. -/
theorem non_ip_packet_accounting (pkts : List Packet) :
    (∀ (i : Nat) (p : Packet) (e : PreviewEntry), pkts[i]? = some p →
      ((analyze_packets pkts).packet_details)[i]? = some e →
      p.hasIP = false → e.source = "N/A" ∧ e.destination = "N/A") ∧
    (aggregate pkts).srcCnt = (aggregate (pkts.filter (fun p => p.hasIP))).srcCnt ∧
    (aggregate pkts).dstCnt = (aggregate (pkts.filter (fun p => p.hasIP))).dstCnt ∧
    (analyze_packets pkts).basic_stats.unique_ips =
      ((((aggregate (pkts.filter (fun p => p.hasIP))).srcCnt.map Prod.fst) ++
        ((aggregate (pkts.filter (fun p => p.hasIP))).dstCnt.map
          Prod.fst)).dedup).length ∧
    (∀ t ∈ (analyze_packets pkts).top_talkers,
      ∃ p ∈ pkts, p.hasIP = true ∧ p.ipSrc = t.1) ∧
    (analyze_packets pkts).basic_stats.total_packets = pkts.length ∧
    (analyze_packets pkts).basic_stats.total_bytes = (pkts.map Packet.len).sum ∧
    sumValues (analyze_packets pkts).protocol_stats = pkts.length := by
  refine ⟨?_, aggregate_srcCnt_filter pkts, aggregate_dstCnt_filter pkts, ?_, ?_,
    analyze_packets_total pkts, ?_, ?_⟩
  · intro i p e hp he hip
    cases pkts with
    | nil => simp at hp
    | cons q qs =>
        rw [analyze_packets_details, List.getElem?_map] at he
        obtain ⟨r, hr, hre⟩ := Option.map_eq_some'.mp he
        rw [List.getElem?_take] at hr
        split at hr
        · rw [hp] at hr
          injection hr with hr
          rw [← hre, ← hr]
          constructor
          · simp [previewEntry, hip]
          · simp [previewEntry, hip]
        · cases hr
  · rw [analyze_packets_unique, aggregate_srcCnt_filter pkts,
      aggregate_dstCnt_filter pkts]
  · intro t ht
    rw [analyze_packets_top] at ht
    have ht2 : t ∈ sortTalkers (aggregate pkts).srcCnt :=
      List.take_subset 5 _ ht
    rw [sortTalkers_eq_rankSources] at ht2
    have ht3 : t ∈ (aggregate pkts).srcCnt := by
      have hperm : List.Perm
          ((rankSources ((aggregate pkts).srcCnt.enum)).map Prod.snd)
          (((aggregate pkts).srcCnt.enum).map Prod.snd) :=
        List.Perm.map Prod.snd (rankSources_perm _)
      have := hperm.mem_iff.mp ht2
      rwa [List.enum_map_snd] at this
    exact srcCnt_key_origin pkts t.1
      (List.mem_map.mpr ⟨t, ht3, rfl⟩)
  · rw [analyze_packets_bytes]
    exact aggregate_bytes pkts
  · rw [analyze_packets_proto]
    exact aggregate_proto_sum pkts

/-! ### C4: the tally fallback is not unconditional -/

/-- C4 counterexample: a packet with none of the TCP, UDP, ICMP or ARP
layers but with a DNS layer is tallied "DNS", not "Other" — the tally
loop has a DNS branch before its fallback, unlike the display
classifier `get_protocol_name`. -/
theorem classifier_fallback_counterexample :
    dnsOnlyPkt.hasTCP = false ∧ dnsOnlyPkt.hasUDP = false ∧
    dnsOnlyPkt.hasICMP = false ∧ dnsOnlyPkt.hasARP = false ∧
    tallyLabel dnsOnlyPkt = "DNS" ∧ ("DNS" : String) ≠ "Other" ∧
    get_protocol_name dnsOnlyPkt = "Other" ∧
    (analyze_packets [dnsOnlyPkt]).protocol_stats = [("DNS", 1)] := by
  refine ⟨rfl, rfl, rfl, rfl, rfl, by decide, rfl, rfl⟩

/-- C4 amended: for a packet with none of the TCP, UDP, ICMP or ARP
layers, the display classifier returns "Other", while the tally label
is "DNS" when a DNS layer is present and "Other" only otherwise. -/
theorem classifier_fallback (p : Packet) (h1 : p.hasTCP = false)
    (h2 : p.hasUDP = false) (h3 : p.hasICMP = false) (h4 : p.hasARP = false) :
    get_protocol_name p = "Other" ∧
    tallyLabel p = (if p.hasDNS then "DNS" else "Other") := by
  constructor
  · simp [get_protocol_name, h1, h2, h3, h4]
  · simp [tallyLabel, h1, h2, h3, h4]

theorem classifier_fallback_witness :
    get_protocol_name dnsOnlyPkt = "Other" ∧ tallyLabel dnsOnlyPkt = "DNS" := by
  have h := classifier_fallback dnsOnlyPkt rfl rfl rfl rfl
  refine ⟨h.1, ?_⟩
  rw [h.2]
  rfl

/-! ### C5: duration is rounded -/

set_option maxRecDepth 4000 in
/-- C5 counterexample: with timestamps 0 and 0.007, the reported
duration is `round(0.007, 2) = 0.01`, not the exact difference
0.007 — the code rounds the difference to 2 decimals. -/
theorem capture_duration_counterexample :
    (analyze_packets [timedPkt 0, timedPkt (7/1000)]).basic_stats.duration
      = 1/100 ∧
    ((1 : ℚ)/100) ≠ (timedPkt (7/1000)).time - (timedPkt 0).time := by
  constructor
  · with_unfolding_all decide
  · with_unfolding_all decide

/-- C5 amended: the duration is the last timestamp minus the first,
rounded to 2 decimals, and 0.0 for captures with zero or one packets. -/
theorem capture_duration :
    ((analyze_packets ([] : List Packet)).basic_stats.duration = 0) ∧
    (∀ p : Packet, (analyze_packets [p]).basic_stats.duration = 0) ∧
    (∀ (p : Packet) (ps : List Packet),
      (analyze_packets (p :: ps)).basic_stats.duration =
        round2 ((ps.getLastD p).time - p.time)) := by
  refine ⟨rfl, ?_, fun p ps => rfl⟩
  intro p
  show round2 (p.time - p.time) = 0
  rw [sub_self]
  have h : roundHalfEven ((0 : ℚ) * 100) = 0 := by
    rw [zero_mul]
    unfold roundHalfEven
    norm_num
  show ((roundHalfEven ((0 : ℚ) * 100) : ℤ) : ℚ) / 100 = 0
  rw [h]
  norm_num

/-! ### C7: a detector failure aborts the request -/

/-- C7 counterexample: with a parser that succeeds and a detector that
fails, `analyze_pcap` returns the 500 internal-error response instead
of the aggregator's output — the detector call sits inside the same
`try` block, so its exception is not isolated. -/
theorem detector_isolation_counterexample :
    analyze_pcap (fun _ => Except.ok []) (fun _ => Except.error "detector crashed")
      true "a.pcap" [] =
      Except.error ⟨500, "Error analyzing file: detector crashed"⟩ := rfl

/-- C7 amended: if the threat detector raises, the whole analysis
fails with an internal error (HTTP 500, detail
`"Error analyzing file: ..."`); the aggregator's output is not
returned. -/
theorem detector_failure_aborts (parse : List Nat → Except String (List Packet))
    (detector : List Packet → Except String (List Alert)) (fn : String)
    (contents : List Nat) (pkts : List Packet) (e : String)
    (hfn : validPcapName fn = true) (hp : parse contents = Except.ok pkts)
    (hd : detector pkts = Except.error e) :
    analyze_pcap parse detector true fn contents =
      Except.error ⟨500, "Error analyzing file: " ++ e⟩ := by
  simp [analyze_pcap, hfn, hp, hd]

theorem detector_failure_aborts_witness :
    analyze_pcap (fun _ => Except.ok []) (fun _ => Except.error "boom") true
      "b.pcap" [] = Except.error ⟨500, "Error analyzing file: boom"⟩ :=
  detector_failure_aborts (fun _ => Except.ok []) (fun _ => Except.error "boom")
    "b.pcap" [] [] "boom" rfl rfl rfl

/-! ### C8: an empty upload is not rejected pre-parse -/

/-- C8 counterexample: a zero-byte upload with a valid extension is
handed to the capture parser, whose outcome decides the response — a
parser error surfaces as a 500 internal error and a parser success
yields a normal result; in neither case is the empty upload rejected
with a 400 input-validation error before parsing. -/
theorem empty_upload_counterexample :
    analyze_pcap (fun _ => Except.error "boom") (fun _ => Except.ok []) true
      "empty.pcap" [] = Except.error ⟨500, "Error analyzing file: boom"⟩ ∧
    analyze_pcap (fun _ => Except.ok []) (fun _ => Except.ok []) true
      "empty.pcap" [] =
      Except.ok ⟨analyze_packets [], "empty.pcap", 0, []⟩ := ⟨rfl, rfl⟩

/-- C8 amended: only a missing filename or bad extension is rejected
pre-parse, with a 400 input-validation error; an empty upload with a
valid name is passed to the capture parser regardless of its contents,
and a parser failure surfaces as a 500 internal error. -/
theorem empty_upload_reaches_loader
    (parse : List Nat → Except String (List Packet))
    (detector : List Packet → Except String (List Alert)) (fn : String)
    (contents : List Nat) :
    (validPcapName fn = false →
      analyze_pcap parse detector true fn contents =
        Except.error
          ⟨400, "Invalid file type. Please upload a .pcap or .pcapng file."⟩) ∧
    (∀ e, validPcapName fn = true → parse contents = Except.error e →
      analyze_pcap parse detector true fn contents =
        Except.error ⟨500, "Error analyzing file: " ++ e⟩) := by
  constructor
  · intro hfn
    simp [analyze_pcap, hfn]
  · intro e hfn hp
    simp [analyze_pcap, hfn, hp]

theorem empty_upload_reaches_loader_witness :
    (analyze_pcap (fun _ => Except.ok []) (fun _ => Except.ok []) true
      "evil.exe" [] =
      Except.error
        ⟨400, "Invalid file type. Please upload a .pcap or .pcapng file."⟩) ∧
    (analyze_pcap (fun _ => Except.error "empty file") (fun _ => Except.ok [])
      true "c.pcap" [] =
      Except.error ⟨500, "Error analyzing file: empty file"⟩) :=
  ⟨(empty_upload_reaches_loader (fun _ => Except.ok []) (fun _ => Except.ok [])
      "evil.exe" []).1 rfl,
   (empty_upload_reaches_loader (fun _ => Except.error "empty file")
      (fun _ => Except.ok []) "c.pcap" []).2 "empty file" rfl rfl⟩

/-! ### Witnesses on concrete captures -/

set_option maxRecDepth 10000 in
theorem syn_flood_alert_iff_witness :
    (∃ a ∈ detect_syn_flood synCapture, a.source_ip = "1.1.1.1") ∧
    (∀ a ∈ detect_syn_flood synCapture, a.source_ip = "1.1.1.1" →
      a.syn_count = 12 ∧ a.syn_ack_count = 0 ∧ a.unique_targets = 12 ∧
      a.severity = "medium") := by
  have h := syn_flood_alert_iff synCapture "1.1.1.1"
  have hbc : bareSynCount synCapture "1.1.1.1" = 12 := by
    with_unfolding_all decide
  have hac : synAckCountSpec synCapture "1.1.1.1" = 0 := by
    with_unfolding_all decide
  have hbt : bareSynTargets synCapture "1.1.1.1" = 12 := by
    with_unfolding_all decide
  constructor
  · apply h.1.mpr
    constructor
    · rw [hbc]
      norm_num
    · rw [hbc, hac]
      norm_num
  · intro a ha hsrc
    obtain ⟨h1, h2, h3, h4, h5⟩ := h.2 a ha hsrc
    refine ⟨by rw [h1, hbc], by rw [h2, hac], by rw [h4, hbt], ?_⟩
    rw [h5, hbc]
    norm_num

set_option maxRecDepth 10000 in
theorem syn_flood_flag_classification_witness :
    (lookupNat (synStep ([], []) synAckPkt).2 "1.1.1.1" = 1) ∧
    ((entriesOf (synStep ([], []) (synPkt 7)).1 "1.1.1.1").length = 1) ∧
    (∃ a ∈ detect_syn_flood synCapture,
      a.syn_ack_count = synAckCountSpec synCapture a.source_ip) := by
  have h := syn_flood_flag_classification
  refine ⟨?_, ?_, ?_⟩
  · have h1 := (h.1 ([], []) synAckPkt "1.1.1.1" rfl rfl).1
    rw [h1, if_pos ⟨rfl, rfl⟩]
    rfl
  · have h2 := (h.1 ([], []) (synPkt 7) "1.1.1.1" rfl rfl).2
    have hc : ((synPkt 7).tcpFlags &&& 2 ≠ 0 ∧ (synPkt 7).tcpFlags &&& 16 = 0) ∧
        (synPkt 7).ipSrc = "1.1.1.1" := ⟨⟨by decide, by decide⟩, rfl⟩
    rw [h2, if_pos hc]
    rfl
  · have hmem : (⟨"1.1.1.1", 12, 0, 0, 12, "medium"⟩ : Alert) ∈
        detect_syn_flood synCapture := by
      with_unfolding_all decide
    exact ⟨_, hmem, (h.2 synCapture _ hmem).2⟩

set_option maxRecDepth 10000 in
theorem protocol_tally_partition_witness :
    (analyze_packets synCapture).basic_stats.total_packets = 12 ∧
    sumValues (analyze_packets synCapture).protocol_stats = 12 := by
  have h := protocol_tally_partition synCapture (by with_unfolding_all decide)
  have hl : synCapture.length = 12 := by with_unfolding_all decide
  exact ⟨by rw [h.1, hl], by rw [h.2.1, hl]⟩

theorem non_ip_packet_accounting_witness :
    ∃ e : PreviewEntry,
      ((analyze_packets [dnsOnlyPkt]).packet_details)[0]? = some e ∧
      e.source = "N/A" ∧ e.destination = "N/A" := by
  have h := non_ip_packet_accounting [dnsOnlyPkt]
  exact ⟨previewEntry dnsOnlyPkt.time dnsOnlyPkt, rfl,
    h.1 0 dnsOnlyPkt (previewEntry dnsOnlyPkt.time dnsOnlyPkt) rfl rfl rfl⟩

